import Mathlib

/-!
# Verification of the Astarte dashboard API client (`src/astarte-client/client.ts`)

This file gives a shallow embedding, in Lean 4, of the parts of the
`AstarteClient` class that the specification's testable properties talk
about: block listing/registration/deletion, group-membership operations
and their double percent-encoding of group names, the realtime channel
registry operations, the `joinRoom` / `openSocketConnection` event-loop
behaviour, and the pagination-token extraction of `getDevices`.

Conventions:
* JavaScript strings that undergo character-level processing
  (percent-encoding, `URLSearchParams` parsing) are modelled as their
  UTF-8 byte sequences, `List Nat` with every element `< 256`.
* Strings that are only compared for equality (block names, room names,
  realm) are modelled as Lean `String`.
* An async method that may issue HTTP requests is modelled as a pure
  function returning its outcome together with the list of HTTP requests
  it issues; a thrown/rejected error is an `Except.error` and, per the
  source's control flow, carries an empty request list when thrown before
  any network call.
* Object-property maps (`joinedChannels`) are modelled as association
  lists with first-match lookup.
-/

/-- Errors thrown/rejected by the client before (or instead of) a network
or socket operation.  Each constructor corresponds to one `Error` message
in the source:
* `invalidGroupName` — `'Invalid group name'` (client.ts:534, 555, 578)
* `invalidDeviceId` — `'Invalid device ID'` (client.ts:559, 582)
* `blockNameExists` — `"The block's name already exists"` (client.ts:688)
* `cannotDeleteNativeBlock` — `'Cannot delete a native block'` (client.ts:708)
* `roomNotJoinedListen` — `"Can't listen for room events before joining it first"` (client.ts:850)
* `roomNotJoinedTrigger` — `"Room not joined, couldn't register trigger"` (client.ts:871)
* `roomNotJoinedLeave` — `"Can't leave a room without joining it first"` (client.ts:880)
* `handshakeRejected` — the raw error object a channel handshake is
  rejected with by the phoenix channel (propagated unmodified). -/
inductive ClientError
| invalidGroupName
| invalidDeviceId
| blockNameExists
| cannotDeleteNativeBlock
| roomNotJoinedListen
| roomNotJoinedTrigger
| roomNotJoinedLeave
| handshakeRejected
deriving DecidableEq

/-- A block DTO (`AstarteBlockDTO`).  The de-duplication and
built-in/custom logic in the source only ever inspects the `name` field;
every other field of the DTO (`source`, `schema`, `type`, ...) is
abstracted into the opaque payload `source`. -/
structure Block where
  name : String
  source : Nat
deriving DecidableEq

/-- The endpoints of the `apiConfig` URL-template table used by the
operations under verification (client.ts:199-232).  Each template is a
distinct pure function of its parameters, so an endpoint is modelled as a
constructor applied to those parameters. -/
inductive Endpoint
| blocks (realm : String)
| blockSource (realm : String) (blockId : String)
| groupDevices (realm : String) (encodedGroupName : List Nat)
| deviceInGroup (realm : String) (encodedGroupName : List Nat) (deviceId : List Nat)
deriving DecidableEq

/-- An HTTP request issued by the client (`$get` / `$post` / `$delete`).
Request bodies are not inspected by any of the verified properties and
are omitted. -/
inductive HttpReq
| get (e : Endpoint)
| post (e : Endpoint)
| del (e : Endpoint)
deriving DecidableEq

/-! ## Percent-encoding (`encodeURIComponent` / `decodeURIComponent`)

`encodeURIComponent` leaves the unreserved characters
`A-Z a-z 0-9 - _ . ! ~ * ' ( )` unchanged and replaces every other byte
of the string's UTF-8 form by `%` followed by two uppercase hex digits.
Since every unreserved character is ASCII, this is exactly a byte-wise
map on the UTF-8 byte sequence. -/

/-- Is byte `b` one of `encodeURIComponent`'s unreserved characters
(`A-Z`, `a-z`, `0-9`, `- _ . ! ~ * ' ( )`)? -/
def isUnreservedByte (b : Nat) : Bool :=
  (65 ≤ b && b ≤ 90) || (97 ≤ b && b ≤ 122) || (48 ≤ b && b ≤ 57) ||
  (b == 45) || (b == 95) || (b == 46) || (b == 33) || (b == 126) ||
  (b == 42) || (b == 39) || (b == 40) || (b == 41)

/-- Uppercase hexadecimal digit for `n < 16`, as a byte. -/
def hexDigit (n : Nat) : Nat :=
  if n < 10 then 48 + n else 55 + n

/-- Value of a hexadecimal digit byte (accepting both cases), `none` for
a non-hex byte. -/
def hexVal (c : Nat) : Option Nat :=
  if 48 ≤ c ∧ c ≤ 57 then some (c - 48)
  else if 65 ≤ c ∧ c ≤ 70 then some (c - 55)
  else if 97 ≤ c ∧ c ≤ 102 then some (c - 87)
  else none

/-- `encodeURIComponent` on a UTF-8 byte sequence. -/
def encodeURIComponent (s : List Nat) : List Nat :=
  s.flatMap fun b =>
    if isUnreservedByte b then [b] else [37, hexDigit (b / 16), hexDigit (b % 16)]

/-- `decodeURIComponent` on a byte sequence: every `%HH` sequence is
replaced by its byte; a `%` not followed by two hex digits is a
`URIError`, modelled as `none`. -/
def decodeURIComponent : List Nat → Option (List Nat)
  | [] => some []
  | c :: rest =>
    if c = 37 then
      match rest with
      | h :: l :: rest2 =>
        match hexVal h, hexVal l with
        | some hv, some lv => (decodeURIComponent rest2).map ((16 * hv + lv) :: ·)
        | _, _ => none
      | _ => none
    else (decodeURIComponent rest).map (c :: ·)

/-- The group-name path segment computed by `getDevicesInGroup`,
`addDeviceToGroup` and `removeDeviceFromGroup`
(client.ts:537, 563, 586):
`const encodedGroupName = encodeURIComponent(encodeURIComponent(groupName))`. -/
def encodedGroupName (groupName : List Nat) : List Nat :=
  encodeURIComponent (encodeURIComponent groupName)

/-! ## Group-membership operations (client.ts:528-595) -/

/-- `getDevicesInGroup` (client.ts:528-549).  The `details` flag only
adds a `details=true` search query to the same endpoint and is irrelevant
to the verified properties, so it is ignored in the recorded request. -/
def getDevicesInGroup (realm : String) (groupName : List Nat) :
    Except ClientError Unit × List HttpReq :=
  if groupName = [] then (.error .invalidGroupName, [])
  else (.ok (), [.get (.groupDevices realm (encodedGroupName groupName))])

/-- `addDeviceToGroup` (client.ts:551-572). -/
def addDeviceToGroup (realm : String) (groupName deviceId : List Nat) :
    Except ClientError Unit × List HttpReq :=
  if groupName = [] then (.error .invalidGroupName, [])
  else if deviceId = [] then (.error .invalidDeviceId, [])
  else (.ok (), [.post (.groupDevices realm (encodedGroupName groupName))])

/-- `removeDeviceFromGroup` (client.ts:574-595). -/
def removeDeviceFromGroup (realm : String) (groupName deviceId : List Nat) :
    Except ClientError Unit × List HttpReq :=
  if groupName = [] then (.error .invalidGroupName, [])
  else if deviceId = [] then (.error .invalidDeviceId, [])
  else (.ok (), [.del (.deviceInGroup realm (encodedGroupName groupName) deviceId)])

/-! ## Block operations (client.ts:677-711)

The statically bundled built-in block list `definitions.blocks` is an
imported constant; all block logic is parameterized by it as
`staticBlocks`, so every theorem below holds for the bundled list in
particular. -/

/-- lodash `_.uniqBy(list, 'name')`: keeps, for each name, the first
element of the list bearing it, in order of first occurrence.  `seen`
accumulates the names already emitted. -/
def uniqByNameGo (seen : List String) : List Block → List Block
  | [] => []
  | b :: rest =>
    if b.name ∈ seen then uniqByNameGo seen rest
    else b :: uniqByNameGo (b.name :: seen) rest

/-- `_.uniqBy(l, 'name')`. -/
def uniqByName (l : List Block) : List Block :=
  uniqByNameGo [] l

/-- `getBlocks` (client.ts:677-683): fetches the server blocks and
returns `_.uniqBy(fetchedBlocks.concat(staticBlocks), 'name')` (the
final `toAstarteBlock` map is a per-element DTO-to-domain conversion that
preserves names and is elided). -/
def getBlocks (staticBlocks fetchedBlocks : List Block) : List Block :=
  uniqByName (fetchedBlocks ++ staticBlocks)

/-- `registerBlock` (client.ts:685-691). -/
def registerBlock (realm : String) (staticBlocks : List Block) (b : Block) :
    Except ClientError Unit × List HttpReq :=
  if (staticBlocks.map Block.name).contains b.name then (.error .blockNameExists, [])
  else (.ok (), [.post (.blocks realm)])

/-- `getBlock` (client.ts:693-703).  `fetched` is the block DTO the
server would answer with on the `blockSource` endpoint. -/
def getBlock (realm : String) (staticBlocks : List Block) (blockId : String)
    (fetched : Block) : Option Block × List HttpReq :=
  if (staticBlocks.map Block.name).contains blockId then
    (staticBlocks.find? (fun blk => blk.name = blockId), [])
  else (some fetched, [.get (.blockSource realm blockId)])

/-- `deleteBlock` (client.ts:705-711). -/
def deleteBlock (realm : String) (staticBlocks : List Block) (blockId : String) :
    Except ClientError Unit × List HttpReq :=
  if (staticBlocks.map Block.name).contains blockId then (.error .cannotDeleteNativeBlock, [])
  else (.ok (), [.del (.blockSource realm blockId)])

/-! ## Realtime channel registry operations (client.ts:844-886)

The client state relevant to `listenForEvents`, `registerVolatileTrigger`
and `leaveRoom`: the joined-channel registry (room name to channel
handle, handles being opaque identifiers), the lazily created socket, and
the connection-event listener registry (callbacks being opaque
identifiers). -/

structure ClientState where
  joinedChannels : List (String × Nat)
  phoenixSocket : Option Nat
  listeners : List (String × List Nat)
deriving DecidableEq

/-- A socket/channel side effect performed by a registry operation. -/
inductive SocketEffect
| channelOn (chan : Nat)
| channelPush (chan : Nat)
| channelLeave (chan : Nat)
deriving DecidableEq

/-- `this.joinedChannels[roomName]` — object-property lookup in the
joined-channel registry. -/
def lookupChannel (st : ClientState) (room : String) : Option Nat :=
  (st.joinedChannels.find? (fun p => p.1 = room)).map (fun p => p.2)

/-- `listenForEvents` (client.ts:844-863): on an unjoined room it rejects
before touching the socket; on a joined room it installs a `new_event`
handler on the cached channel (`channel.on`) and resolves. -/
def listenForEvents (st : ClientState) (room : String) :
    Except ClientError Unit × ClientState × List SocketEffect :=
  match lookupChannel st room with
  | none => (.error .roomNotJoinedListen, st, [])
  | some c => (.ok (), st, [.channelOn c])

/-- `registerVolatileTrigger` (client.ts:865-875): on an unjoined room it
rejects before touching the socket; on a joined room it pushes a `watch`
message and resolves or rejects with the channel's acknowledgment
(`ack`). -/
def registerVolatileTrigger (st : ClientState) (room : String) (ack : Bool) :
    Except ClientError Unit × ClientState × List SocketEffect :=
  match lookupChannel st room with
  | none => (.error .roomNotJoinedTrigger, st, [])
  | some c =>
    if ack then (.ok (), st, [.channelPush c])
    else (.error .handshakeRejected, st, [.channelPush c])

/-- `leaveRoom` (client.ts:877-886): on an unjoined room it rejects
before touching the socket; on a joined room it performs the leave
handshake and removes the registry entry only when the handshake is
acknowledged (`ack`). -/
def leaveRoom (st : ClientState) (room : String) (ack : Bool) :
    Except ClientError Unit × ClientState × List SocketEffect :=
  match lookupChannel st room with
  | none => (.error .roomNotJoinedLeave, st, [])
  | some c =>
    if ack then
      (.ok (), { st with joinedChannels := st.joinedChannels.filter (fun p => p.1 ≠ room) },
        [.channelLeave c])
    else (.error .handshakeRejected, st, [.channelLeave c])

/-! ## `joinRoom` / `openSocketConnection` event-loop model (client.ts:793-842)

JavaScript's event loop runs each synchronous stretch of code to
completion; asynchronous completions (socket open, channel-join reply)
arrive as later events in some order.  A call of `joinRoom` is modelled
as a *thread*: its status records where the call currently is between
suspension points.  An execution is a list of events — `invoke i` runs
thread `i`'s `joinRoom` call, `openOk i` fires the open callback of the
socket connection thread `i` started, `joinOk i` / `joinErr i` fire the
`ok` / `error` reply of the join handshake thread `i` started.  The model
is faithful to the source:

* `openSocketConnection` (client.ts:793-819) returns the existing socket
  if `this.phoenixSocket` is set, otherwise it *always* starts a new
  connection attempt (`new Socket(...)` + `connect()` run synchronously
  inside the promise executors) — there is no pending-attempt field — and
  stores the socket in `this.phoenixSocket` only when the open callback
  fires.
* `joinRoom` (client.ts:821-842), when the socket is absent, awaits
  `openSocketConnection` and then re-enters itself; when the socket is
  present it returns the cached channel if the registry has one,
  otherwise it starts a join handshake (`joinChannel`, client.ts:90-102)
  and caches and resolves the channel when the `ok` reply fires.  The
  surrounding promise `new Promise((resolve) => { joinChannel(...).then(...) })`
  has no rejection path: when the join handshake is rejected, nothing
  settles the promise returned to the caller (status `neverSettles`).

Socket and channel handles are numbered by allocation order. -/

/-- Status of one `joinRoom` call between event-loop suspension points.
`rejected` is what propagating a handshake rejection to the caller would
look like; the model (faithfully to the source) never produces it. -/
inductive TStatus
| start
| awaitOpen
| awaitJoin (sock : Nat)
| resolvedOk (chan : Nat)
| rejected
| neverSettles
deriving DecidableEq

/-- Shared client state plus per-thread statuses and instrumentation
counters: `openCount` counts socket connection attempts started
(`new Socket` + `connect()`), `joinCount` counts join handshakes
performed (`channel.join()`). -/
structure JoinState where
  threads : List TStatus
  socket : Option Nat
  cache : Option Nat
  openCount : Nat
  joinCount : Nat
  nextSock : Nat
  nextChan : Nat
deriving DecidableEq

/-- Replace thread `i`'s status. -/
def setThread (s : JoinState) (i : Nat) (t : TStatus) : JoinState :=
  { s with threads := s.threads.set i t }

/-- The synchronous body of `joinRoom` for thread `i`, run to its first
suspension point: with no socket it starts a connection attempt
(client.ts:823-829 via client.ts:793-819); with a socket and a cached
channel it resolves immediately (client.ts:831-834); otherwise it starts
a join handshake (client.ts:836-841). -/
def runSync (s : JoinState) (i : Nat) : JoinState :=
  match s.socket with
  | none => { setThread s i .awaitOpen with openCount := s.openCount + 1 }
  | some sock =>
    match s.cache with
    | some ch => setThread s i (.resolvedOk ch)
    | none => { setThread s i (.awaitJoin sock) with joinCount := s.joinCount + 1 }

/-- Event-loop events: a `joinRoom` invocation, the socket-open callback
for thread `i`'s connection attempt, and the ok/error reply of thread
`i`'s join handshake. -/
inductive JEvent
| invoke (i : Nat)
| openOk (i : Nat)
| joinOk (i : Nat)
| joinErr (i : Nat)
deriving DecidableEq

/-- One event-loop step.  On `openOk`, the open callback stores the fresh
socket in `this.phoenixSocket` (unconditionally, possibly overwriting one
stored by another thread) and `joinRoom` re-enters its body
(client.ts:814-817, 825-827).  On `joinOk`, the `ok` reply resolves
`joinChannel`, the `.then` caches the channel and resolves the caller
(client.ts:837-840).  On `joinErr`, `joinChannel` rejects, the `.then`
callback never runs, and nothing settles the caller's promise
(client.ts:836-841). -/
def step (s : JoinState) : JEvent → JoinState
  | .invoke i =>
    match s.threads[i]? with
    | some .start => runSync s i
    | _ => s
  | .openOk i =>
    match s.threads[i]? with
    | some .awaitOpen =>
      let sock := s.nextSock
      runSync { setThread s i .start with socket := some sock, nextSock := sock + 1 } i
    | _ => s
  | .joinOk i =>
    match s.threads[i]? with
    | some (.awaitJoin _) =>
      let ch := s.nextChan
      { setThread s i (.resolvedOk ch) with cache := some ch, nextChan := ch + 1 }
    | _ => s
  | .joinErr i =>
    match s.threads[i]? with
    | some (.awaitJoin _) => setThread s i .neverSettles
    | _ => s

/-- Run a list of event-loop events. -/
def exec (s : JoinState) : List JEvent → JoinState
  | [] => s
  | e :: es => exec (step s e) es

/-- Initial state: `n` pending `joinRoom` calls for the same room, no
socket (`this.phoenixSocket = null`), empty registry. -/
def initJoin (n : Nat) : JoinState :=
  ⟨List.replicate n .start, none, none, 0, 0, 0, 0⟩

/-! ## `getDevices` pagination token (client.ts:380-402)

`const nextToken = new URLSearchParams(response.links.next).get('from_token')`
(client.ts:400).  `URLSearchParams`' string initializer applies the
`application/x-www-form-urlencoded` parser to the *whole* string (after
stripping one leading `?`): split on `&`, skip empty pieces, split each
piece at its first `=` into name/value, replace `+` by space, and decode
`%HH` sequences leniently (an invalid sequence is copied through).
`get` returns the value of the first pair whose name matches, or `null`.
When the response carries no `links.next`, `new URLSearchParams(undefined)`
yields an empty parameter list. -/

/-- Split a byte list on a separator byte (keeping empty pieces). -/
def splitByte (sep : Nat) : List Nat → List (List Nat)
  | [] => [[]]
  | c :: rest =>
    match splitByte sep rest with
    | [] => [[]]
    | p :: ps => if c = sep then [] :: p :: ps else (c :: p) :: ps

/-- Split a piece at its first `=` (byte 61) into name and value; a piece
without `=` is all name, with empty value. -/
def splitEq : List Nat → List Nat × List Nat
  | [] => ([], [])
  | c :: rest =>
    if c = 61 then ([], rest)
    else
      let kv := splitEq rest
      (c :: kv.1, kv.2)

/-- Replace `+` (byte 43) by space (byte 32). -/
def plusToSpace (s : List Nat) : List Nat :=
  s.map fun c => if c = 43 then 32 else c

/-- Lenient percent-decoding as in the form-urlencoded parser: `%HH`
becomes the byte `HH`; a `%` not followed by two hex digits is copied
through. -/
def formDecode : List Nat → List Nat
  | [] => []
  | c :: h :: l :: rest2 =>
    if c = 37 then
      match hexVal h, hexVal l with
      | some hv, some lv => (16 * hv + lv) :: formDecode rest2
      | _, _ => 37 :: formDecode (h :: l :: rest2)
    else c :: formDecode (h :: l :: rest2)
  | c :: rest => c :: formDecode rest

/-- Strip one leading `?` (byte 63), as `URLSearchParams` does. -/
def stripLeadQ : List Nat → List Nat
  | [] => []
  | c :: rest => if c = 63 then rest else c :: rest

/-- The name/value pairs of `new URLSearchParams(s)` for a string `s`. -/
def formPairs (s : List Nat) : List (List Nat × List Nat) :=
  ((splitByte 38 (stripLeadQ s)).filter (fun piece => piece ≠ [])).map fun piece =>
    let kv := splitEq piece
    (formDecode (plusToSpace kv.1), formDecode (plusToSpace kv.2))

/-- `new URLSearchParams(s).get(key)`. -/
def searchParamsGet (s key : List Nat) : Option (List Nat) :=
  ((formPairs s).find? (fun p => p.1 = key)).map (fun p => p.2)

/-- The UTF-8 bytes of an ASCII string (all our concrete strings are
ASCII, where the UTF-8 bytes are the code points). -/
def asciiBytes (s : String) : List Nat :=
  s.data.map fun c => c.toNat

/-- The bytes of `'from_token'`. -/
def fromTokenKey : List Nat :=
  asciiBytes "from_token"

/-- The `nextToken` computed by `getDevices` (client.ts:400) from the
response's `links.next` field (`none` when the response carries no
pagination link, in which case `new URLSearchParams(undefined)` has no
pairs). -/
def getDevicesNextToken (linksNext : Option (List Nat)) : Option (List Nat) :=
  searchParamsGet (linksNext.getD []) fromTokenKey

/-- The query component of a URL string: everything after the first `?`
(used to state what the next link's actual query parameters are). -/
def urlQuery (s : List Nat) : List Nat :=
  (s.dropWhile (fun c => c ≠ 63)).drop 1

/-! ## Theorems -/

/-- C6: for every call to `addDeviceToGroup` or `removeDeviceFromGroup`
in which the group name is the empty string or the device ID is the empty
string, the operation rejects synchronously with a descriptive error and
issues no HTTP request. -/
theorem groupOps_empty_param_rejects (realm : String) (g d : List Nat)
    (h : g = [] ∨ d = []) :
    (∃ e, (addDeviceToGroup realm g d).1 = Except.error e)
    ∧ (addDeviceToGroup realm g d).2 = []
    ∧ (∃ e, (removeDeviceFromGroup realm g d).1 = Except.error e)
    ∧ (removeDeviceFromGroup realm g d).2 = [] := by
  by_cases hg : g = []
  · refine ⟨⟨.invalidGroupName, ?_⟩, ?_, ⟨.invalidGroupName, ?_⟩, ?_⟩ <;>
      simp [addDeviceToGroup, removeDeviceFromGroup, hg]
  · have hd : d = [] := h.resolve_left hg
    refine ⟨⟨.invalidDeviceId, ?_⟩, ?_, ⟨.invalidDeviceId, ?_⟩, ?_⟩ <;>
      simp [addDeviceToGroup, removeDeviceFromGroup, hg, hd]

/-- C6 witness: empty group name with a nonempty device ID. -/
theorem groupOps_empty_param_rejects_witness :
    (∃ e, (addDeviceToGroup "test" [] [97]).1 = Except.error e)
    ∧ (addDeviceToGroup "test" [] [97]).2 = []
    ∧ (∃ e, (removeDeviceFromGroup "test" [] [97]).1 = Except.error e)
    ∧ (removeDeviceFromGroup "test" [] [97]).2 = [] :=
  groupOps_empty_param_rejects "test" [] [97] (Or.inl rfl)

/-- C5: for every room name that is not present in the joined-channel
registry, `listenForEvents`, `registerVolatileTrigger` and `leaveRoom`
each reject with a precondition error, perform no socket or channel
operation, and leave the client state unchanged. -/
theorem unjoinedRoom_ops_reject (st : ClientState) (room : String) (ack : Bool)
    (h : lookupChannel st room = none) :
    listenForEvents st room = (.error .roomNotJoinedListen, st, [])
    ∧ registerVolatileTrigger st room ack = (.error .roomNotJoinedTrigger, st, [])
    ∧ leaveRoom st room ack = (.error .roomNotJoinedLeave, st, []) := by
  refine ⟨?_, ?_, ?_⟩ <;> simp [listenForEvents, registerVolatileTrigger, leaveRoom, h]

/-- C5 witness: a client that has joined room `r1` but not `r2`. -/
theorem unjoinedRoom_ops_reject_witness :
    listenForEvents ⟨[("r1", 5)], some 0, []⟩ "r2"
      = (.error .roomNotJoinedListen, ⟨[("r1", 5)], some 0, []⟩, [])
    ∧ registerVolatileTrigger ⟨[("r1", 5)], some 0, []⟩ "r2" true
      = (.error .roomNotJoinedTrigger, ⟨[("r1", 5)], some 0, []⟩, [])
    ∧ leaveRoom ⟨[("r1", 5)], some 0, []⟩ "r2" true
      = (.error .roomNotJoinedLeave, ⟨[("r1", 5)], some 0, []⟩, []) :=
  unjoinedRoom_ops_reject ⟨[("r1", 5)], some 0, []⟩ "r2" true (by decide)

/-- C7: `registerBlock` rejects with the naming-conflict error and issues
no HTTP request when the block's name is a built-in name, and issues the
POST to the blocks endpoint otherwise. -/
theorem registerBlock_conflict (realm : String) (st : List Block) (b : Block) :
    ((st.map Block.name).contains b.name = true →
      registerBlock realm st b = (.error .blockNameExists, []))
    ∧ ((st.map Block.name).contains b.name = false →
      registerBlock realm st b = (.ok (), [.post (.blocks realm)])) := by
  constructor <;> intro h <;> simp only [registerBlock, h] <;> simp

/-- C7 witness: registering a block named like the built-in `b1` rejects
without a request; registering `b2` issues the POST. -/
theorem registerBlock_conflict_witness :
    registerBlock "test" [⟨"b1", 0⟩] ⟨"b1", 1⟩ = (.error .blockNameExists, [])
    ∧ registerBlock "test" [⟨"b1", 0⟩] ⟨"b2", 1⟩ = (.ok (), [.post (.blocks "test")]) :=
  ⟨(registerBlock_conflict "test" [⟨"b1", 0⟩] ⟨"b1", 1⟩).1 (by decide),
   (registerBlock_conflict "test" [⟨"b1", 0⟩] ⟨"b2", 1⟩).2 (by decide)⟩

/-- C8: `deleteBlock` on a built-in block's name rejects without issuing
any HTTP request; on any other block ID it issues exactly one HTTP delete
request (the singleton request list to the block-source endpoint). -/
theorem deleteBlock_builtin (realm : String) (st : List Block) (blockId : String) :
    ((st.map Block.name).contains blockId = true →
      deleteBlock realm st blockId = (.error .cannotDeleteNativeBlock, []))
    ∧ ((st.map Block.name).contains blockId = false →
      deleteBlock realm st blockId = (.ok (), [.del (.blockSource realm blockId)])) := by
  constructor <;> intro h <;> simp only [deleteBlock, h] <;> simp

/-- C8 witness: deleting built-in `b1` rejects without a request;
deleting `b2` issues exactly one delete request. -/
theorem deleteBlock_builtin_witness :
    deleteBlock "test" [⟨"b1", 0⟩] "b1" = (.error .cannotDeleteNativeBlock, [])
    ∧ deleteBlock "test" [⟨"b1", 0⟩] "b2" = (.ok (), [.del (.blockSource "test" "b2")]) :=
  ⟨(deleteBlock_builtin "test" [⟨"b1", 0⟩] "b1").1 (by decide),
   (deleteBlock_builtin "test" [⟨"b1", 0⟩] "b2").2 (by decide)⟩

/-- C10: `getBlock` on a built-in block's name returns the statically
bundled block definition of that name without issuing any HTTP request;
on any other block ID it fetches the block from the server's block-source
endpoint. -/
theorem getBlock_builtin (realm : String) (st : List Block) (blockId : String)
    (fetched : Block) :
    ((st.map Block.name).contains blockId = true →
      ∃ blk, blk ∈ st ∧ blk.name = blockId
        ∧ getBlock realm st blockId fetched = (some blk, []))
    ∧ ((st.map Block.name).contains blockId = false →
      getBlock realm st blockId fetched = (some fetched, [.get (.blockSource realm blockId)])) := by
  constructor <;> intro h
  · have hmem : ∃ blk ∈ st, blk.name = blockId := by
      simp at h; simpa using h
    obtain ⟨blk, hm, hn⟩ := hmem
    have hsome : (st.find? (fun b => b.name = blockId)).isSome := by
      rw [List.find?_isSome]
      exact ⟨blk, hm, by simp [hn]⟩
    obtain ⟨blk2, hfind⟩ := Option.isSome_iff_exists.mp hsome
    have hname : blk2.name = blockId := by
      have h2 := List.find?_some hfind
      simpa using h2
    refine ⟨blk2, List.mem_of_find?_eq_some hfind, hname, ?_⟩
    simp only [getBlock, h, hfind]
    simp
  · simp only [getBlock, h]
    simp

/-- C10 witness: fetching built-in `b1` returns the bundled definition
with no request; fetching `b2` issues the GET and returns the server's
block. -/
theorem getBlock_builtin_witness :
    (∃ blk, blk ∈ [(⟨"b1", 0⟩ : Block)] ∧ blk.name = "b1"
      ∧ getBlock "test" [⟨"b1", 0⟩] "b1" ⟨"b2", 7⟩ = (some blk, []))
    ∧ getBlock "test" [⟨"b1", 0⟩] "b2" ⟨"b2", 7⟩
      = (some ⟨"b2", 7⟩, [.get (.blockSource "test" "b2")]) :=
  ⟨(getBlock_builtin "test" [⟨"b1", 0⟩] "b1" ⟨"b2", 7⟩).1 (by decide),
   (getBlock_builtin "test" [⟨"b1", 0⟩] "b2" ⟨"b2", 7⟩).2 (by decide)⟩

/-! ### Block de-duplication (C1) -/

theorem uniqByNameGo_subset (l : List Block) (seen : List String) :
    ∀ b ∈ uniqByNameGo seen l, b ∈ l := by
  induction l generalizing seen with
  | nil => simp [uniqByNameGo]
  | cons x rest ih =>
    intro b hb
    rw [uniqByNameGo] at hb
    by_cases hx : x.name ∈ seen
    · rw [if_pos hx] at hb
      exact List.mem_cons_of_mem _ (ih seen b hb)
    · rw [if_neg hx] at hb
      rcases List.mem_cons.mp hb with rfl | hb2
      · exact List.mem_cons_self _ _
      · exact List.mem_cons_of_mem _ (ih _ b hb2)

theorem uniqByNameGo_not_seen (l : List Block) (seen : List String) :
    ∀ b ∈ uniqByNameGo seen l, b.name ∉ seen := by
  induction l generalizing seen with
  | nil => simp [uniqByNameGo]
  | cons x rest ih =>
    intro b hb
    rw [uniqByNameGo] at hb
    by_cases hx : x.name ∈ seen
    · rw [if_pos hx] at hb
      exact ih seen b hb
    · rw [if_neg hx] at hb
      rcases List.mem_cons.mp hb with rfl | hb2
      · exact hx
      · intro hmem
        exact ih _ b hb2 (List.mem_cons_of_mem _ hmem)

theorem uniqByNameGo_pairwise (l : List Block) (seen : List String) :
    (uniqByNameGo seen l).Pairwise (fun a b => a.name ≠ b.name) := by
  induction l generalizing seen with
  | nil => simp [uniqByNameGo]
  | cons x rest ih =>
    rw [uniqByNameGo]
    by_cases hx : x.name ∈ seen
    · rw [if_pos hx]; exact ih seen
    · rw [if_neg hx]
      refine List.Pairwise.cons ?_ (ih _)
      intro b hb heq
      exact uniqByNameGo_not_seen rest (x.name :: seen) b hb (heq ▸ List.mem_cons_self _ _)

/-- `_.uniqBy` keeps, for each name, the first list element bearing it:
its `find?` by name agrees with the original list's. -/
theorem uniqByNameGo_find? (l : List Block) (seen : List String) (n : String)
    (hn : n ∉ seen) :
    (uniqByNameGo seen l).find? (fun b => b.name = n) = l.find? (fun b => b.name = n) := by
  induction l generalizing seen with
  | nil => rfl
  | cons x rest ih =>
    rw [uniqByNameGo]
    by_cases hx : x.name ∈ seen
    · rw [if_pos hx]
      have hxn : ¬ (x.name = n) := fun h => hn (h ▸ hx)
      rw [ih seen hn, List.find?_cons_of_neg _ (by simpa using hxn)]
    · rw [if_neg hx]
      by_cases hxn : x.name = n
      · rw [List.find?_cons_of_pos _ (by simpa using hxn),
          List.find?_cons_of_pos _ (by simpa using hxn)]
      · rw [List.find?_cons_of_neg _ (by simpa using hxn),
          List.find?_cons_of_neg _ (by simpa using hxn)]
        refine ih _ ?_
        simp only [List.mem_cons, not_or]
        exact ⟨fun h => hxn h.symm, hn⟩

theorem find?_append_left {p : Block → Bool} {l1 : List Block} (l2 : List Block)
    {x : Block} (h : l1.find? p = some x) : (l1 ++ l2).find? p = some x := by
  induction l1 with
  | nil => simp at h
  | cons a rest ih =>
    by_cases ha : p a
    · rw [List.find?_cons_of_pos _ ha] at h
      rw [List.cons_append, List.find?_cons_of_pos _ ha]
      exact h
    · rw [List.find?_cons_of_neg _ (by simpa using ha)] at h
      rw [List.cons_append, List.find?_cons_of_neg _ (by simpa using ha)]
      exact ih h

/-- C1 counterexample: with built-in list `[{name a, source 1}]` and
server list `[{name a, source 2}]`, `getBlocks` returns the *server*
entry for name `a`, not the built-in one — `_.uniqBy` keeps the first
occurrence and the fetched blocks come first in
`fetchedBlocks.concat(staticBlocks)`. -/
theorem getBlocks_counterexample :
    getBlocks [⟨"a", 1⟩] [⟨"a", 2⟩] = [⟨"a", 2⟩]
    ∧ (⟨"a", 2⟩ : Block) ≠ ⟨"a", 1⟩ := by
  constructor
  · rfl
  · decide

/-- C1 (amended): `getBlocks` returns the two lists merged and
de-duplicated by name — no two returned entries share a name, every
returned entry comes from one of the two lists, every name of either list
is represented — and whenever a server-fetched block has the same name as
a built-in block, the returned entry for that name is the (first)
server-fetched one, never the built-in. -/
theorem getBlocks_dedup (st fe : List Block) :
    (getBlocks st fe).Pairwise (fun a b => a.name ≠ b.name)
    ∧ (∀ b ∈ getBlocks st fe, b ∈ fe ++ st)
    ∧ (∀ b ∈ fe ++ st, ∃ bq, bq ∈ getBlocks st fe ∧ bq.name = b.name)
    ∧ (∀ b ∈ fe, ∃ bq, bq ∈ getBlocks st fe ∧ bq.name = b.name ∧ bq ∈ fe) := by
  refine ⟨uniqByNameGo_pairwise _ _, uniqByNameGo_subset _ _, ?_, ?_⟩
  · intro b hb
    have hsome : ((fe ++ st).find? (fun x => x.name = b.name)).isSome := by
      rw [List.find?_isSome]
      exact ⟨b, hb, by simp⟩
    obtain ⟨bq, hfind⟩ := Option.isSome_iff_exists.mp hsome
    have hq : (getBlocks st fe).find? (fun x => x.name = b.name) = some bq := by
      rw [getBlocks, uniqByName, uniqByNameGo_find? _ _ _ (List.not_mem_nil _)]
      exact hfind
    refine ⟨bq, List.mem_of_find?_eq_some hq, ?_⟩
    have h2 := List.find?_some hq
    simpa using h2
  · intro b hb
    have hsome : (fe.find? (fun x => x.name = b.name)).isSome := by
      rw [List.find?_isSome]
      exact ⟨b, hb, by simp⟩
    obtain ⟨bq, hfe⟩ := Option.isSome_iff_exists.mp hsome
    have hfind : (fe ++ st).find? (fun x => x.name = b.name) = some bq :=
      find?_append_left st hfe
    have hq : (getBlocks st fe).find? (fun x => x.name = b.name) = some bq := by
      rw [getBlocks, uniqByName, uniqByNameGo_find? _ _ _ (List.not_mem_nil _)]
      exact hfind
    refine ⟨bq, List.mem_of_find?_eq_some hq, ?_, List.mem_of_find?_eq_some hfe⟩
    have h2 := List.find?_some hq
    simpa using h2

/-- C1 witness: on the lists of the counterexample, the returned entry
named `a` is a server-fetched block. -/
theorem getBlocks_dedup_witness :
    ∃ bq, bq ∈ getBlocks [⟨"a", 1⟩] [⟨"a", 2⟩] ∧ bq.name = "a" ∧ bq ∈ [(⟨"a", 2⟩ : Block)] :=
  (getBlocks_dedup [⟨"a", 1⟩] [⟨"a", 2⟩]).2.2.2 ⟨"a", 2⟩ (by decide)

/-! ### Percent-encoding roundtrip (C4) -/

theorem hexVal_hexDigit (n : Nat) (h : n < 16) : hexVal (hexDigit n) = some n := by
  interval_cases n <;> decide

theorem hexDigit_lt (n : Nat) (h : n < 16) : hexDigit n < 256 := by
  rw [hexDigit]; split <;> omega

theorem encodeURIComponent_cons (b : Nat) (rest : List Nat) :
    encodeURIComponent (b :: rest) =
      (if isUnreservedByte b then [b] else [37, hexDigit (b / 16), hexDigit (b % 16)])
        ++ encodeURIComponent rest := by
  simp [encodeURIComponent]

theorem encodeURIComponent_bytes_lt (s : List Nat) (h : ∀ b ∈ s, b < 256) :
    ∀ b ∈ encodeURIComponent s, b < 256 := by
  intro b hb
  rw [encodeURIComponent, List.mem_flatMap] at hb
  obtain ⟨a, ha, hmem⟩ := hb
  have ha256 : a < 256 := h a ha
  by_cases hu : isUnreservedByte a
  · rw [if_pos hu] at hmem
    simp at hmem
    omega
  · rw [if_neg hu] at hmem
    simp at hmem
    rcases hmem with rfl | rfl | rfl
    · omega
    · exact hexDigit_lt _ (by omega)
    · exact hexDigit_lt _ (by omega)

theorem decode_cons_ne (c : Nat) (rest : List Nat) (h : ¬ c = 37) :
    decodeURIComponent (c :: rest) = (decodeURIComponent rest).map (c :: ·) := by
  cases rest with
  | nil => simp [decodeURIComponent, h]
  | cons x t =>
    cases t with
    | nil => simp [decodeURIComponent, h]
    | cons y t2 => simp [decodeURIComponent, h]

theorem decode_cons_37 (h l : Nat) (rest2 : List Nat) (hv lv : Nat)
    (hh : hexVal h = some hv) (hl : hexVal l = some lv) :
    decodeURIComponent (37 :: h :: l :: rest2)
      = (decodeURIComponent rest2).map ((16 * hv + lv) :: ·) := by
  simp [decodeURIComponent, hh, hl]

/-- Percent-decoding inverts percent-encoding on byte strings. -/
theorem decode_encode (s : List Nat) (h : ∀ b ∈ s, b < 256) :
    decodeURIComponent (encodeURIComponent s) = some s := by
  induction s with
  | nil => rfl
  | cons b rest ih =>
    have hb : b < 256 := h b (List.mem_cons_self _ _)
    have hrest := ih (fun x hx => h x (List.mem_cons_of_mem _ hx))
    rw [encodeURIComponent_cons]
    by_cases hu : isUnreservedByte b
    · rw [if_pos hu]
      have hb37 : ¬ (b = 37) := by
        intro e; subst e; exact absurd hu (by decide)
      rw [List.cons_append, List.nil_append, decode_cons_ne b _ hb37, hrest]
      rfl
    · rw [if_neg hu]
      simp only [List.cons_append, List.nil_append]
      rw [decode_cons_37 _ _ _ _ _ (hexVal_hexDigit (b / 16) (by omega))
        (hexVal_hexDigit (b % 16) (by omega)), hrest]
      simp [Nat.div_add_mod]

/-- C4: for every nonempty group name (as a UTF-8 byte string), the
group-name path segment placed in the URL by `getDevicesInGroup`,
`addDeviceToGroup` and `removeDeviceFromGroup` is the double
percent-encoding of the name, and percent-decoding that segment twice
recovers the original name exactly. -/
theorem groupName_double_encoding (realm : String) (g d : List Nat)
    (hg : g ≠ []) (hd : d ≠ []) (hbytes : ∀ b ∈ g, b < 256) :
    (getDevicesInGroup realm g).2 = [.get (.groupDevices realm (encodedGroupName g))]
    ∧ (addDeviceToGroup realm g d).2 = [.post (.groupDevices realm (encodedGroupName g))]
    ∧ (removeDeviceFromGroup realm g d).2 = [.del (.deviceInGroup realm (encodedGroupName g) d)]
    ∧ (decodeURIComponent (encodedGroupName g)).bind decodeURIComponent = some g := by
  refine ⟨?_, ?_, ?_, ?_⟩
  · simp [getDevicesInGroup, hg]
  · simp [addDeviceToGroup, hg, hd]
  · simp [removeDeviceFromGroup, hg, hd]
  · rw [encodedGroupName, decode_encode _ (encodeURIComponent_bytes_lt g hbytes)]
    simp [decode_encode g hbytes]

/-- C4 witness: the group name `a%/"` (bytes 97, 37, 47, 34), containing
a percent sign, a slash and a quote, double-decodes back from its
placed segment. -/
theorem groupName_double_encoding_witness :
    (addDeviceToGroup "test" [97, 37, 47, 34] [98]).2
      = [.post (.groupDevices "test" (encodedGroupName [97, 37, 47, 34]))]
    ∧ (decodeURIComponent (encodedGroupName [97, 37, 47, 34])).bind decodeURIComponent
      = some [97, 37, 47, 34] :=
  ⟨(groupName_double_encoding "test" [97, 37, 47, 34] [98]
      (by decide) (by decide) (by decide)).2.1,
   (groupName_double_encoding "test" [97, 37, 47, 34] [98]
      (by decide) (by decide) (by decide)).2.2.2⟩

/-! ### `joinRoom` event-loop behaviour (C2, C3) -/

theorem runSync_cache (s : JoinState) (i : Nat) : (runSync s i).cache = s.cache := by
  rcases hs : s.socket with _ | sock
  · simp [runSync, hs, setThread]
  · rcases hc : s.cache with _ | ch <;> simp [runSync, hs, hc, setThread]

/-- The joined-channel cache changes only when a join handshake is
acknowledged with `ok`. -/
theorem step_cache_of_ne_joinOk (s : JoinState) (e : JEvent) (h : ∀ j, e ≠ .joinOk j) :
    (step s e).cache = s.cache := by
  cases e with
  | invoke i =>
    rcases ht : s.threads[i]? with _ | t
    · simp [step, ht]
    · cases t <;> simp [step, ht, runSync_cache, setThread]
  | openOk i =>
    rcases ht : s.threads[i]? with _ | t
    · simp [step, ht]
    · cases t <;> simp [step, ht, runSync_cache, setThread]
  | joinOk i => exact absurd rfl (h i)
  | joinErr i =>
    rcases ht : s.threads[i]? with _ | t
    · simp [step, ht]
    · cases t <;> simp [step, ht, setThread]

/-- C2 counterexample: two `joinRoom` calls for the same room issued
before either resolves (no socket yet).  Both socket opens and both join
handshakes are performed — two connection attempts, two handshakes — and
the two calls resolve to *different* channel handles (0 and 1). -/
theorem joinRoom_concurrent_counterexample :
    (exec (initJoin 2) [.invoke 0, .invoke 1, .openOk 0, .openOk 1,
        .joinOk 0, .joinOk 1]).openCount = 2
    ∧ (exec (initJoin 2) [.invoke 0, .invoke 1, .openOk 0, .openOk 1,
        .joinOk 0, .joinOk 1]).joinCount = 2
    ∧ (exec (initJoin 2) [.invoke 0, .invoke 1, .openOk 0, .openOk 1,
        .joinOk 0, .joinOk 1]).threads = [.resolvedOk 0, .resolvedOk 1]
    ∧ TStatus.resolvedOk 0 ≠ TStatus.resolvedOk 1 := by
  decide

/-- C2 (amended): a `joinRoom` call is idempotent only once a previous
join has *completed*: invoked with the socket open and a cached channel,
it resolves to the identical cached handle with no further socket open or
handshake; invoked with the socket open but no cached channel it performs
its own join handshake, and invoked with no socket it starts its own
connection attempt (concurrent calls therefore do not share the in-flight
attempt). -/
theorem joinRoom_invoke_spec (s : JoinState) (i : Nat)
    (h : s.threads[i]? = some .start) :
    (∀ sock ch, s.socket = some sock → s.cache = some ch →
      step s (.invoke i) = setThread s i (.resolvedOk ch))
    ∧ (∀ sock, s.socket = some sock → s.cache = none →
      step s (.invoke i) = { setThread s i (.awaitJoin sock) with joinCount := s.joinCount + 1 })
    ∧ (s.socket = none →
      step s (.invoke i) = { setThread s i .awaitOpen with openCount := s.openCount + 1 }) := by
  refine ⟨?_, ?_, ?_⟩
  · intro sock ch hs hc
    simp [step, h, runSync, hs, hc]
  · intro sock hs hc
    simp [step, h, runSync, hs, hc]
  · intro hs
    simp [step, h, runSync, hs]

/-- C2 witness: after one call has fully joined (`invoke 0`, `openOk 0`,
`joinOk 0`), a second call resolves immediately to the cached handle with
no additional handshake. -/
theorem joinRoom_invoke_spec_witness :
    step (exec (initJoin 2) [.invoke 0, .openOk 0, .joinOk 0]) (.invoke 1)
      = setThread (exec (initJoin 2) [.invoke 0, .openOk 0, .joinOk 0]) 1 (.resolvedOk 0) :=
  (joinRoom_invoke_spec _ 1 (by decide)).1 0 0 (by decide) (by decide)

/-- C3 counterexample: one `joinRoom` call whose join handshake is
rejected by the server.  The room is (correctly) not cached, but the
rejection is *not* propagated to the caller: the promise never settles
(`neverSettles`, not `rejected`). -/
theorem joinRoom_rejection_counterexample :
    (exec (initJoin 1) [.invoke 0, .openOk 0, .joinErr 0]).threads = [.neverSettles]
    ∧ (exec (initJoin 1) [.invoke 0, .openOk 0, .joinErr 0]).cache = none
    ∧ TStatus.neverSettles ≠ TStatus.rejected := by
  decide

/-- C3 (amended): when the join handshake is rejected, the room is not
added to the joined-channel registry — the handle is cached only when the
handshake succeeds (`joinOk` steps are the only cache changes) — but the
rejection is not propagated to the caller: the `joinRoom` promise never
settles. -/
theorem joinRoom_handshake_rejection (s : JoinState) (i sock : Nat)
    (h : s.threads[i]? = some (.awaitJoin sock)) :
    step s (.joinErr i) = setThread s i .neverSettles
    ∧ (step s (.joinErr i)).cache = s.cache
    ∧ ∀ (sq : JoinState) (e : JEvent), (step sq e).cache ≠ sq.cache → ∃ j, e = .joinOk j := by
  refine ⟨by simp [step, h], by simp [step, h, setThread], ?_⟩
  intro sq e he
  cases e with
  | joinOk j => exact ⟨j, rfl⟩
  | invoke j => exact absurd (step_cache_of_ne_joinOk sq _ (by intro k; simp)) he
  | openOk j => exact absurd (step_cache_of_ne_joinOk sq _ (by intro k; simp)) he
  | joinErr j => exact absurd (step_cache_of_ne_joinOk sq _ (by intro k; simp)) he

/-- C3 witness: a single call awaiting its join handshake; the rejection
leaves the registry unchanged and the call never settles. -/
theorem joinRoom_handshake_rejection_witness :
    step (exec (initJoin 1) [.invoke 0, .openOk 0]) (.joinErr 0)
      = setThread (exec (initJoin 1) [.invoke 0, .openOk 0]) 0 .neverSettles
    ∧ (step (exec (initJoin 1) [.invoke 0, .openOk 0]) (.joinErr 0)).cache
      = (exec (initJoin 1) [.invoke 0, .openOk 0]).cache :=
  ⟨(joinRoom_handshake_rejection _ 0 0 (by decide)).1,
   (joinRoom_handshake_rejection _ 0 0 (by decide)).2.1⟩

/-! ### `getDevices` pagination token (C9) -/

theorem splitByte_ne_nil (sep : Nat) (s : List Nat) : splitByte sep s ≠ [] := by
  cases s with
  | nil => simp [splitByte]
  | cons c rest =>
    rw [splitByte]
    rcases h : splitByte sep rest with _ | ⟨p, ps⟩
    · simp [h]
    · simp only [h]
      split <;> simp

theorem splitByte_no_sep (sep : Nat) (a : List Nat) (h : sep ∉ a) : splitByte sep a = [a] := by
  induction a with
  | nil => rfl
  | cons c rest ih =>
    have hc : ¬ (c = sep) := fun e => h (e ▸ List.mem_cons_self _ _)
    rw [splitByte, ih (fun hm => h (List.mem_cons_of_mem _ hm))]
    simp [hc]

theorem splitByte_append (sep : Nat) (a b : List Nat) (h : sep ∉ a) :
    splitByte sep (a ++ sep :: b) = a :: splitByte sep b := by
  induction a with
  | nil =>
    simp only [List.nil_append]
    rw [splitByte]
    rcases hb : splitByte sep b with _ | ⟨p, ps⟩
    · exact absurd hb (splitByte_ne_nil sep b)
    · simp
  | cons c rest ih =>
    have hc : ¬ (c = sep) := fun e => h (e ▸ List.mem_cons_self _ _)
    rw [List.cons_append, splitByte, ih (fun hm => h (List.mem_cons_of_mem _ hm))]
    simp [hc]

theorem splitEq_append (k v : List Nat) (h : 61 ∉ k) : splitEq (k ++ 61 :: v) = (k, v) := by
  induction k with
  | nil => simp [splitEq]
  | cons c rest ih =>
    have hc : ¬ (c = 61) := fun e => h (e ▸ List.mem_cons_self _ _)
    rw [List.cons_append, splitEq, ih (fun hm => h (List.mem_cons_of_mem _ hm))]
    simp [hc]

theorem plusToSpace_no_plus (s : List Nat) (h : 43 ∉ s) : plusToSpace s = s := by
  induction s with
  | nil => rfl
  | cons c rest ih =>
    have hc : ¬ (c = 43) := fun e => h (e ▸ List.mem_cons_self _ _)
    have ih2 := ih (fun hm => h (List.mem_cons_of_mem _ hm))
    simp only [plusToSpace] at ih2 ⊢
    simp [List.map_cons, hc, ih2]

theorem formDecode_cons_ne (c : Nat) (rest : List Nat) (hc : ¬ c = 37) :
    formDecode (c :: rest) = c :: formDecode rest := by
  cases rest with
  | nil => simp [formDecode, hc]
  | cons x t =>
    cases t with
    | nil => simp [formDecode, hc]
    | cons y t2 => simp [formDecode, hc]

theorem formDecode_no_pct (s : List Nat) (h : 37 ∉ s) : formDecode s = s := by
  induction s with
  | nil => rfl
  | cons c rest ih =>
    have hc : ¬ (c = 37) := fun e => h (e ▸ List.mem_cons_self _ _)
    rw [formDecode_cons_ne c rest hc, ih (fun hm => h (List.mem_cons_of_mem _ hm))]


theorem searchParamsGet_second (s a k v t : List Nat)
    (hstrip : stripLeadQ s = a ++ 38 :: (fromTokenKey ++ 61 :: t))
    (ha38 : 38 ∉ a) (ha0 : a ≠ [])
    (hsplit : splitEq a = (k, v))
    (hkd : formDecode (plusToSpace k) = k)
    (hkne : ¬ (k = fromTokenKey))
    (ht43 : 43 ∉ t) (ht37 : 37 ∉ t)
    (h38b : (38 : Nat) ∉ fromTokenKey ++ 61 :: t) :
    searchParamsGet s fromTokenKey = some t := by
  rw [searchParamsGet, formPairs, hstrip, splitByte_append 38 a _ ha38,
    splitByte_no_sep 38 _ h38b]
  have hb0 : fromTokenKey ++ 61 :: t ≠ [] := by simp [fromTokenKey, asciiBytes]
  rw [List.filter_cons, List.filter_cons, List.filter_nil]
  simp only [ha0, hb0, ne_eq, not_false_eq_true, decide_True, if_true]
  rw [List.map_cons, List.map_cons, List.map_nil]
  simp only [hsplit]
  rw [splitEq_append _ _ (by decide : (61 : Nat) ∉ fromTokenKey)]
  simp only [hkd]
  rw [plusToSpace_no_plus _ (by decide : (43 : Nat) ∉ fromTokenKey),
    formDecode_no_pct _ (by decide : (37 : Nat) ∉ fromTokenKey),
    plusToSpace_no_plus t ht43, formDecode_no_pct t ht37]
  rw [List.find?_cons_of_neg _ (by simpa using hkne),
    List.find?_cons_of_pos _ (by simp)]
  rfl

/-- C9 counterexample: the link `/v1/test/devices?from_token=abc` does
contain a `from_token` query parameter with value `abc` (its URL query
component parses to that pair), but `getDevices` computes `nextToken =
null` for it: `new URLSearchParams` parses the *whole* link string, so
the path fuses with the first parameter name into the key
`/v1/test/devices?from_token`, which does not match `from_token`. -/
theorem getDevices_nextToken_counterexample :
    searchParamsGet (urlQuery (asciiBytes "/v1/test/devices?from_token=abc")) fromTokenKey
      = some (asciiBytes "abc")
    ∧ getDevicesNextToken (some (asciiBytes "/v1/test/devices?from_token=abc")) = none := by
  decide

/-- C9 (amended): a response with no pagination link yields a null
`nextToken`; a link whose `from_token` pair is a form-urlencoded pair of
the whole link string — here, preceded by `&` after an earlier parameter
— yields exactly its value `t`.  (When `from_token` is the *first*
parameter of a path-bearing link, the path fuses with its name and the
token is null, per the counterexample.) -/

theorem getDevices_nextToken_parsed (path t : List Nat)
    (hpath : ∀ b ∈ path, b ≠ 38 ∧ b ≠ 61 ∧ b ≠ 43 ∧ b ≠ 37 ∧ b ≠ 63)
    (ht : ∀ b ∈ t, b ≠ 38 ∧ b ≠ 43 ∧ b ≠ 37) :
    getDevicesNextToken none = none
    ∧ getDevicesNextToken (some (path ++ asciiBytes "?limit=10&from_token=" ++ t))
      = some t := by
  refine ⟨rfl, ?_⟩
  have ht43 : (43 : Nat) ∉ t := fun hm => (ht 43 hm).2.1 rfl
  have ht37 : (37 : Nat) ∉ t := fun hm => (ht 37 hm).2.2 rfl
  have ht38 : (38 : Nat) ∉ t := fun hm => (ht 38 hm).1 rfl
  have h38b : (38 : Nat) ∉ fromTokenKey ++ 61 :: t := by
    intro hm
    rcases List.mem_append.mp hm with h1 | h2
    · revert h1; decide
    · rcases List.mem_cons.mp h2 with e | h3
      · exact absurd e (by decide)
      · exact ht38 h3
  have hinq : asciiBytes "?limit=10&from_token=" ++ t
      = 63 :: (asciiBytes "limit=10" ++ 38 :: (fromTokenKey ++ 61 :: t)) := by
    have e : asciiBytes "?limit=10&from_token="
        = 63 :: (asciiBytes "limit=10" ++ 38 :: (fromTokenKey ++ [61])) := by decide
    rw [e]
    simp [List.append_assoc]
  rw [getDevicesNextToken, Option.getD_some]
  cases path with
  | nil =>
    rw [List.nil_append, hinq]
    refine searchParamsGet_second _ (asciiBytes "limit=10") (asciiBytes "limit")
      (asciiBytes "10") t ?_ (by decide) (by decide) (by decide) (by decide) (by decide)
      ht43 ht37 h38b
    simp [stripLeadQ]
  | cons p0 path2 =>
    have hp0 : ¬ (p0 = 63) := (hpath p0 (List.mem_cons_self _ _)).2.2.2.2
    have hlink : (p0 :: path2) ++ asciiBytes "?limit=10&from_token=" ++ t
        = ((p0 :: path2) ++ 63 :: asciiBytes "limit=10")
          ++ 38 :: (fromTokenKey ++ 61 :: t) := by
      rw [List.append_assoc, hinq]
      simp [List.append_assoc]
    have hk61 : (61 : Nat) ∉ (p0 :: path2) ++ 63 :: asciiBytes "limit" := by
      intro hm
      rcases List.mem_append.mp hm with h1 | h2
      · exact (hpath 61 h1).2.1 rfl
      · revert h2; decide
    have hk43 : (43 : Nat) ∉ (p0 :: path2) ++ 63 :: asciiBytes "limit" := by
      intro hm
      rcases List.mem_append.mp hm with h1 | h2
      · exact (hpath 43 h1).2.2.1 rfl
      · revert h2; decide
    have hk37 : (37 : Nat) ∉ (p0 :: path2) ++ 63 :: asciiBytes "limit" := by
      intro hm
      rcases List.mem_append.mp hm with h1 | h2
      · exact (hpath 37 h1).2.2.2.1 rfl
      · revert h2; decide
    have ha38 : (38 : Nat) ∉ (p0 :: path2) ++ 63 :: asciiBytes "limit=10" := by
      intro hm
      rcases List.mem_append.mp hm with h1 | h2
      · exact (hpath 38 h1).1 rfl
      · revert h2; decide
    have hkne : ¬ ((p0 :: path2) ++ 63 :: asciiBytes "limit" = fromTokenKey) := by
      intro e
      have h63 : (63 : Nat) ∈ (p0 :: path2) ++ 63 :: asciiBytes "limit" :=
        List.mem_append.mpr (Or.inr (List.mem_cons_self _ _))
      rw [e] at h63
      revert h63; decide
    rw [hlink]
    refine searchParamsGet_second _ ((p0 :: path2) ++ 63 :: asciiBytes "limit=10")
      ((p0 :: path2) ++ 63 :: asciiBytes "limit") (asciiBytes "10") t ?_ ha38 (by simp)
      ?_ ?_ hkne ht43 ht37 h38b
    · simp [stripLeadQ, hp0]
    · have e : (63 : Nat) :: asciiBytes "limit=10"
          = (63 :: asciiBytes "limit") ++ 61 :: asciiBytes "10" := by decide
      rw [e, ← List.append_assoc]
      exact splitEq_append _ _ hk61
    · rw [plusToSpace_no_plus _ hk43, formDecode_no_pct _ hk37]

/-- C9 witness: path `/v1/test/devices`, token `abc`. -/
theorem getDevices_nextToken_parsed_witness :
    getDevicesNextToken (some (asciiBytes "/v1/test/devices"
        ++ asciiBytes "?limit=10&from_token=" ++ asciiBytes "abc"))
      = some (asciiBytes "abc") :=
  (getDevices_nextToken_parsed (asciiBytes "/v1/test/devices") (asciiBytes "abc")
    (by decide) (by decide)).2
